import Mathlib

/-!
Verification of the caddygit repository synchronizer against its
natural-language specification.

The Go sources are shallowly embedded: Go strings are lists of
characters, git repositories are explicit record states and every
effectful git or process operation is a pure state-passing function.
The source tree contains several generations of the same component
(the root `caddygit` package, the `repository`/`commander` packages and
the `client` package); where the generations differ, each one is
embedded separately under its own namespace and the theorems name the
generation they speak about.
-/

namespace CaddyGit

/-- Go strings are modelled as lists of characters. -/
abbrev Str := List Char

/-- Coercion helper turning a Lean string literal into the model's
string representation. -/
def str (s : String) : Str := s.data

/-- Unified error type covering the error values surfaced by the Go
sources and their collaborators (go-git, os/exec, syscall). -/
inductive Err where
  /-- go-git `NoErrAlreadyUpToDate`. -/
  | alreadyUpToDate
  /-- go-git `ErrRepositoryNotExists` from `PlainOpen`. -/
  | repoNotExists
  /-- any other `PlainOpen` failure (e.g. the path is a regular file). -/
  | openFailed
  /-- go-git `ErrRemoteNotFound`. -/
  | remoteNotFound
  /-- a reference could not be resolved. -/
  | refNotFound
  /-- a commit object is missing from storage. -/
  | objNotFound
  /-- the repository package's `errNoTag` ("no tag found"). -/
  | noTag
  /-- go-git `ErrNonFastForwardUpdate`. -/
  | nonFastForward
  /-- The `exec.Cmd.Start` failure. -/
  | spawnFailed
  /-- context cancellation error (`ctx.Err()`). -/
  | ctxCanceled
  /-- the `syscall.Kill` call itself failed. -/
  | killFailed
  /-- exit error of a process terminated by a signal
  (what `Wait` reports after `exec.CommandContext` kills the child). -/
  | killedBySignal
  /-- non-zero exit status of a process. -/
  | exitStatus (code : Nat)
  /-- module validation: empty repository URL. -/
  | emptyURL
  /-- module validation: empty repository path. -/
  | emptyPath
  /-- The `errNotGitDir`: "given path is neither empty nor a git directory". -/
  | notGitDir
  /-- module validation: URL scheme is not http or https. -/
  | schemeNotSupported
  /-- module validation: poll interval below five seconds. -/
  | intervalTooSmall
  /-- poll service: "cannot run poll service for non-positive interval". -/
  | pollNonPositive
  /-- time service: `ErrNoRunTimeService` ("service cannot be run for
  given interval"). -/
  | noRunTimeService
deriving DecidableEq, Repr

/-- Decidable equality for `Except` results, so concrete runs of the
model can be checked by `decide`. -/
instance instDecEqExcept {ε α : Type} [DecidableEq ε] [DecidableEq α] :
    DecidableEq (Except ε α) := fun a b =>
  match a, b with
  | .error e1, .error e2 =>
    if h : e1 = e2 then .isTrue (h ▸ rfl) else .isFalse (fun hh => h (Except.error.inj hh))
  | .ok x, .ok y =>
    if h : x = y then .isTrue (h ▸ rfl) else .isFalse (fun hh => h (Except.ok.inj hh))
  | .error _, .ok _ => .isFalse (fun hh => Except.noConfusion hh)
  | .ok _, .error _ => .isFalse (fun hh => Except.noConfusion hh)

namespace Utils

/-- The `strings.Split` of Go restricted to a single-character separator,
as used by `reference_name.go` with the delimiter `"|"`. -/
def splitOn (sep : Char) : Str → List Str
  | [] => [[]]
  | c :: rest =>
    let r := splitOn sep rest
    if c = sep then [] :: r
    else
      match r with
      | [] => [[c]]
      | h :: t => (c :: h) :: t

/-- The delimiter `separateDelimeter = "|"` of `reference_name.go`. -/
def delim : Char := '|'

/-- The reference type strings of `reference_name.go`. -/
def latestCommitT : Str := str "latest_commit"

/-- Reference type string `latest_tag`. -/
def latestTagT : Str := str "latest_tag"

/-- Reference type string `tag`. -/
def tagT : Str := str "tag"

/-- The `newReferenceName`: concatenates the type, the delimiter and the
name. -/
def newReferenceName (name : Str) (typ : Str) : Str :=
  typ ++ delim :: name

/-- The `NewLatestCommitReferenceName`. -/
def newLatestCommitReferenceName (name : Str) : Str :=
  newReferenceName name latestCommitT

/-- The `NewLatestTagReferenceName`. -/
def newLatestTagReferenceName (name : Str) : Str :=
  newReferenceName name latestTagT

/-- The `NewTagReferenceName`. -/
def newTagReferenceName (name : Str) : Str :=
  newReferenceName name tagT

/-- The `isType`: whether the reference string starts with
`typ + delimiter`. -/
def isType (r : Str) (typ : Str) : Bool :=
  (typ ++ [delim]).isPrefixOf r

/-- The `IsLatestCommit`. -/
def isLatestCommit (r : Str) : Bool := isType r latestCommitT

/-- The `IsLatestTag`. -/
def isLatestTag (r : Str) : Bool := isType r latestTagT

/-- The `IsTag`. -/
def isTag (r : Str) : Bool := isType r tagT

/-- The `Name`: Go indexes `opts[1]`, which panics when the split yields
fewer than two parts; the `Option` result makes that partiality
explicit (`none` models the panic). -/
def name? (r : Str) : Option Str :=
  (splitOn delim r).get? 1

/-- The `Name` as used by callers that have already checked `IsValid`
(two parts are then guaranteed, so the default is never taken). -/
def name (r : Str) : Str := (name? r).getD []

/-- The `IsValid`: exactly two delimiter-separated parts whose first part
is one of the three known reference types. -/
def isValid (r : Str) : Bool :=
  let opts := splitOn delim r
  match opts with
  | t :: _ =>
    decide (opts.length = 2) &&
      (t = latestCommitT || t = latestTagT || t = tagT)
  | [] => false

end Utils

namespace Git

/-- A git commit object: its hash, the hashes of its parents, and its
committer time (go-git orders by `Committer.When`). -/
structure Commit where
  hash : Nat
  parents : List Nat
  ctime : Nat
deriving DecidableEq, Repr

/-- Contents of a git repository: the commit object database and the
branch and tag references, keyed by full reference name
(`refs/heads/…`, `refs/tags/…`). -/
structure RepoData where
  commits : List Commit
  branches : List (Str × Nat)
  tags : List (Str × Nat)
deriving DecidableEq, Repr

/-- The on-disk repository state owned by the synchronizer: its data,
its configured remotes (name to URL), and the reference the worktree
is currently checked out at. -/
structure GitState where
  data : RepoData
  remotes : List (Str × Str)
  headRef : Str
deriving DecidableEq, Repr

/-- Association-list lookup for string-keyed reference maps. -/
def lookupS (m : List (Str × Nat)) (k : Str) : Option Nat :=
  match m with
  | [] => none
  | (k2, v) :: rest => if k2 = k then some v else lookupS rest k

/-- Association-list lookup for the hash-to-tag map. -/
def lookupN (m : List (Nat × Str)) (k : Nat) : Option Str :=
  match m with
  | [] => none
  | (k2, v) :: rest => if k2 = k then some v else lookupN rest k

/-- Association-list lookup for the remotes map. -/
def lookupR (m : List (Str × Str)) (k : Str) : Option Str :=
  match m with
  | [] => none
  | (k2, v) :: rest => if k2 = k then some v else lookupR rest k

/-- Overwriting insert into the hash-to-tag map (`tagsMap[hash] = ref`:
a later tag on the same commit replaces the earlier one). -/
def setN (m : List (Nat × Str)) (k : Nat) (v : Str) : List (Nat × Str) :=
  match m with
  | [] => [(k, v)]
  | (k2, v2) :: rest => if k2 = k then (k, v) :: rest else (k2, v2) :: setN rest k v

/-- Update a branch reference to a new target hash (fast-forward). -/
def setS (m : List (Str × Nat)) (k : Str) (v : Nat) : List (Str × Nat) :=
  match m with
  | [] => [(k, v)]
  | (k2, v2) :: rest => if k2 = k then (k, v) :: rest else (k2, v2) :: setS rest k v

/-- Remove a remote from the remotes map (`DeleteRemote`). -/
def removeR (m : List (Str × Str)) (k : Str) : List (Str × Str) :=
  match m with
  | [] => []
  | (k2, v) :: rest => if k2 = k then removeR rest k else (k2, v) :: removeR rest k

/-- go-git `plumbing.NewBranchReferenceName`. -/
def branchRef (b : Str) : Str := str "refs/heads/" ++ b

/-- go-git `plumbing.NewTagReferenceName`. -/
def tagRef (t : Str) : Str := str "refs/tags/" ++ t

/-- go-git `ReferenceName.IsBranch`. -/
def isBranchName (r : Str) : Bool := (str "refs/heads/").isPrefixOf r

/-- Resolve a full reference name to a commit hash, first among the
branches and then among the tags. -/
def resolveName (d : RepoData) (ref : Str) : Option Nat :=
  match lookupS d.branches ref with
  | some h => some h
  | none => lookupS d.tags ref

/-- Find a commit object by hash. -/
def findCommit (cs : List Commit) (h : Nat) : Option Commit :=
  cs.find? (fun c => c.hash = h)

/-- Committer time of a hash (`0` for a missing object; a missing
object aborts the walk before the value is ever used). -/
def ctimeOf (cs : List Commit) (h : Nat) : Nat :=
  match findCommit cs h with
  | some c => c.ctime
  | none => 0

/-- Pick the frontier element with the greatest committer time (the
priority-queue pop of go-git's `LogOrderCommitterTime` iterator;
between equal keys, the element discovered first is taken). -/
def pickMax (cs : List Commit) (frontier : List Nat) : Option Nat :=
  frontier.foldl
    (fun acc h =>
      match acc with
      | none => some h
      | some b => if ctimeOf cs b < ctimeOf cs h then some h else some b)
    none

/-- The committer-time-ordered commit walk of go-git's
`Log(&LogOptions{Order: LogOrderCommitterTime})`: repeatedly pop the
unvisited frontier commit with the greatest committer time, yield it
and push its not-yet-seen parents.  `none` models a storage error (a
referenced commit object is missing); the fuel is large enough that it
is never exhausted before the frontier empties. -/
def logWalk (cs : List Commit) : Nat → List Nat → List Nat → Option (List Nat)
  | 0, _, _ => none
  | fuel + 1, frontier, seen =>
    match pickMax cs frontier with
    | none => some []
    | some h =>
      match findCommit cs h with
      | none => none
      | some c =>
        let rest := frontier.erase h
        let seen2 := h :: seen
        let push := c.parents.filter (fun p => !seen2.contains p && !rest.contains p)
        match logWalk cs fuel (rest ++ push) seen2 with
        | none => none
        | some l => some (h :: l)

/-- Fuel bound for the walk: one unit per commit processed plus one per
parent edge ever pushed, plus slack for the start hash. -/
def walkFuel (cs : List Commit) : Nat :=
  cs.foldl (fun a c => a + 1 + c.parents.length) 2

/-- The commit log from a start hash in committer-time order. -/
def logCTime (d : RepoData) (start : Nat) : Option (List Nat) :=
  logWalk d.commits (walkFuel d.commits) [start] []

/-- The `tags.ForEach(func(ref) { tagsMap[ref.Hash()] = ref })`: build the
hash-to-tag-reference map over all tags, in iteration order, a later
tag overwriting an earlier one on the same commit. -/
def buildTagsMap (tags : List (Str × Nat)) : List (Nat × Str) :=
  tags.foldl (fun m t => setN m t.2 t.1) []

/-- The `commits.ForEach` body of `getLatestTag`: scan the walk in
order and stop at the first commit whose hash appears in the tag map,
returning that tag's reference name. -/
def firstTagged (m : List (Nat × Str)) : List Nat → Option Str
  | [] => none
  | h :: rest =>
    match lookupN m h with
    | some t => some t
    | none => firstTagged m rest

/-- Hashes reachable from a start hash by following parent edges
(fuel-bounded breadth-first closure), used for the fast-forward
ancestry check of `git pull`. -/
def reachAll (cs : List Commit) : Nat → List Nat → List Nat → List Nat
  | 0, _, acc => acc
  | fuel + 1, frontier, acc =>
    match frontier with
    | [] => acc
    | h :: rest =>
      if acc.contains h then reachAll cs fuel rest acc
      else
        match findCommit cs h with
        | none => reachAll cs fuel rest (h :: acc)
        | some c => reachAll cs fuel (rest ++ c.parents) (h :: acc)

/-- Whether `anc` is an ancestor of (reachable from) `h`. -/
def isAncestor (cs : List Commit) (anc h : Nat) : Bool :=
  (reachAll cs (walkFuel cs) [h] []).contains anc

/-- The raw effect of `git fetch` with `Tags: AllTags` from a remote
with contents `rem`: new commit objects and new tags are copied into
the local repository (local branch references are untouched).  The
boolean is go-git's "already up to date": nothing new was fetched. -/
def fetchRaw (rem : RepoData) (s : GitState) : GitState × Bool :=
  let newCommits := rem.commits.filter
    (fun c => !(s.data.commits.any (fun c2 => c2.hash = c.hash)))
  let newTags := rem.tags.filter (fun t => (lookupS s.data.tags t.1).isNone)
  ({ s with data := { s.data with
      commits := s.data.commits ++ newCommits,
      tags := s.data.tags ++ newTags } },
   newCommits.isEmpty && newTags.isEmpty)

/-- Result of the raw `git pull` (fetch plus fast-forward-only merge). -/
inductive PullRes where
  | upToDate
  | ok
  | err (e : Err)
deriving DecidableEq, Repr

/-- The raw effect of `wtree.Pull` for a branch reference: fetch, then
fast-forward the local branch to the remote branch's target if the
local target is its ancestor.  `upToDate` is go-git's
`NoErrAlreadyUpToDate`. -/
def pullRaw (rem : RepoData) (refName : Str) (s : GitState) : GitState × PullRes :=
  let s1 := (fetchRaw rem s).1
  match lookupS rem.branches refName, lookupS s1.data.branches refName with
  | some tgt, some cur =>
    if cur = tgt then (s1, .upToDate)
    else if isAncestor s1.data.commits cur tgt then
      ({ s1 with data := { s1.data with branches := setS s1.data.branches refName tgt } },
       .ok)
    else (s1, .err .nonFastForward)
  | _, _ => (s1, .err .refNotFound)

/-- The `wtree.Checkout(&CheckoutOptions{Branch: ref})`: resolve the
reference and point the worktree at it; fail when it does not exist. -/
def checkout (ref : Str) (s : GitState) : GitState × Except Err Unit :=
  match resolveName s.data ref with
  | some _ => ({ s with headRef := ref }, .ok ())
  | none => (s, .error .refNotFound)

/-- The `repo.Head()` resolved to a hash. -/
def headHash (s : GitState) : Option Nat := resolveName s.data s.headRef

end Git

namespace Repo

open Git

/-- The `repository.Opts` (the authentication fields are carried along
unchanged; the claims do not exercise network authentication). -/
structure Opts where
  url : Str
  path : Str
  remote : Str
  branch : Str
  username : Str
  password : Str
  singleBranch : Bool
  depth : Int
deriving DecidableEq, Repr

/-- The `transport.AuthMethod` as constructed by `repository.New`. -/
inductive AuthMethod where
  | noAuth
  | basic (username password : Str)
deriving DecidableEq, Repr

/-- The `repository.Repository` runtime object (the configuration
part; the `*git.Repository` handle is the explicit `GitState`). -/
structure RepoCfg where
  url : Str
  path : Str
  remoteName : Str
  fetchLatestTag : Bool
  refName : Str
  auth : AuthMethod
  singleBranch : Bool
  depth : Int
deriving DecidableEq, Repr

/-- The `repository.New`: resolve the branch-or-tag string of the options
into the reference name and the track-latest-tag flag, apply the
remote and branch defaults, and build the credential. -/
def new (o : Opts) : RepoCfg :=
  let remoteName := if o.remote = [] then str "origin" else o.remote
  let (refName, fetchLatestTag) :=
    if !(Utils.isValid o.branch) then
      (branchRef (if o.branch = [] then str "master" else o.branch), false)
    else
      let flt := Utils.isLatestTag o.branch
      if Utils.isTag o.branch then
        (tagRef (Utils.name o.branch), flt)
      else
        (branchRef (if Utils.name o.branch = [] then str "master" else Utils.name o.branch),
         flt)
  let auth :=
    if o.username = [] && o.password = [] then AuthMethod.noAuth
    else AuthMethod.basic (if o.username = [] then str "caddy" else o.username) o.password
  { url := o.url, path := o.path, remoteName := remoteName
    fetchLatestTag := fetchLatestTag, refName := refName, auth := auth
    singleBranch := o.singleBranch, depth := o.depth }

/-- The `Repository.fetch` of the `repository` package: the raw fetch,
with go-git's `NoErrAlreadyUpToDate` propagated as an error (this
version has no special case for it). -/
def fetch (rem : RepoData) (s : GitState) : GitState × Except Err Unit :=
  match fetchRaw rem s with
  | (s1, true) => (s1, .error .alreadyUpToDate)
  | (s1, false) => (s1, .ok ())

/-- The `Repository.pull` of the `repository` package: the raw pull, with
`NoErrAlreadyUpToDate` propagated as an error (no special case). -/
def pull (r : RepoCfg) (rem : RepoData) (s : GitState) : GitState × Except Err Unit :=
  match pullRaw rem r.refName s with
  | (s1, .upToDate) => (s1, .error .alreadyUpToDate)
  | (s1, .ok) => (s1, .ok ())
  | (s1, .err e) => (s1, .error e)

/-- The `Repository.getLatestTag` of the `repository` package: fetch,
check out the tracked branch, build the hash-to-tag map over all tags,
then walk the commit log from HEAD in committer-time order and return
the tag of the first commit found in the map; `noTag` when the walk
exhausts without a match. -/
def getLatestTag (r : RepoCfg) (rem : RepoData) (s : GitState) :
    GitState × Except Err Str :=
  match fetch rem s with
  | (s1, .error e) => (s1, .error e)
  | (s1, .ok ()) =>
    match checkout r.refName s1 with
    | (s2, .error e) => (s2, .error e)
    | (s2, .ok ()) =>
      match headHash s2 with
      | none => (s2, .error .refNotFound)
      | some h =>
        match logCTime s2.data h with
        | none => (s2, .error .objNotFound)
        | some l =>
          match firstTagged (buildTagsMap s2.data.tags) l with
          | some t => (s2, .ok t)
          | none => (s2, .error .noTag)

/-- The `Repository.Update` of the `repository` package: in latest-tag
mode run the search and check out its result, swallowing `noTag`; for
a branch reference pull; for a fixed tag do nothing. -/
def update (r : RepoCfg) (rem : RepoData) (s : GitState) : GitState × Except Err Unit :=
  if r.fetchLatestTag then
    match getLatestTag r rem s with
    | (s1, .ok tag) => checkout tag s1
    | (s1, .error .noTag) => (s1, .ok ())
    | (s1, .error e) => (s1, .error e)
  else if isBranchName r.refName then
    pull r rem s
  else (s, .ok ())

/-- State of the configured local path as seen by `PlainOpen`,
`IsDir` and `IsDirEmpty`. -/
inductive PathState where
  /-- the path does not exist. -/
  | absent
  /-- the path exists but is a regular file. -/
  | file
  /-- an existing empty directory. -/
  | dirEmpty
  /-- an existing non-empty directory that is not a git repository. -/
  | dirOther
  /-- an existing directory holding an openable git repository. -/
  | dirGit
deriving DecidableEq, Repr

/-- The `git.PlainOpen`: succeeds on a git directory (yielding the current
on-disk state), reports `ErrRepositoryNotExists` when no repository is
found at the path, and any other error for a non-directory path. -/
def plainOpen (ps : PathState) (s : GitState) : Except Err GitState :=
  match ps with
  | .dirGit => .ok s
  | .file => .error .openFailed
  | _ => .error .repoNotExists

/-- The `git.PlainCloneContext` with the options built by `Setup`: clone
the remote's contents, create the configured remote, and check out the
requested reference (failing when the remote does not have it). -/
def cloneRepo (r : RepoCfg) (rem : RepoData) : Except Err GitState :=
  match resolveName rem r.refName with
  | some _ => .ok { data := rem, remotes := [(r.remoteName, r.url)], headRef := r.refName }
  | none => .error .refNotFound

/-- The remote reconfiguration step of `Setup` on an already-open
repository: `DeleteRemote` (its only failure, `ErrRemoteNotFound`, is
tolerated) followed by `CreateRemote` with the configured name and
URL. -/
def configureRemote (r : RepoCfg) (s : GitState) : GitState :=
  { s with remotes := removeR s.remotes r.remoteName ++ [(r.remoteName, r.url)] }

/-- The `Repository.Setup` of the `repository` package: open the path if
it already holds a repository and re-point its remote, fetch and check
out; clone fresh when no repository exists; propagate any other open
error. -/
def setup (r : RepoCfg) (rem : RepoData) (ps : PathState) (s : GitState) :
    GitState × Except Err Unit :=
  match plainOpen ps s with
  | .ok repo =>
    let repo1 := configureRemote r repo
    match fetch rem repo1 with
    | (s2, .error e) => (s2, .error e)
    | (s2, .ok ()) => checkout r.refName s2
  | .error .repoNotExists =>
    match cloneRepo r rem with
    | .ok s2 => (s2, .ok ())
    | .error e => (s, .error e)
  | .error e => (s, .error e)

end Repo

namespace Legacy

open Git

/-- Modelled from the spec: the constants `latestTagKeyword`,
`defaultBranchName` and `defaultRemoteName` of the root `caddygit`
package are declared in a file that is not present under `src/`; the
`Repository.Tag` doc comment and the spec name the placeholder
`\x7blatest\x7d` and the defaults "master" and "origin". -/
def latestTagKeyword : Str := str "\x7blatest\x7d"

/-- Default branch name of the root `caddygit` package. -/
def defaultBranchName : Str := str "master"

/-- The root-package `caddygit.Repository` configuration (the fields
the synchronization logic reads). -/
structure RepoCfg where
  url : Str
  path : Str
  tag : Str
  branch : Str
deriving DecidableEq, Repr

/-- The `Repository.isRefLatestTag`. -/
def isRefLatestTag (r : RepoCfg) : Bool := r.tag = latestTagKeyword

/-- The `Repository.isRefBranch`. -/
def isRefBranch (r : RepoCfg) : Bool := r.tag = []

/-- The `Repository.branchReferenceName`: the branch with the default
applied. -/
def branchReferenceName (r : RepoCfg) : Str :=
  branchRef (if r.branch = [] then defaultBranchName else r.branch)

/-- The `Repository.referenceName`: the branch reference for a branch or
latest-tag configuration, the tag reference otherwise. -/
def referenceName (r : RepoCfg) : Str :=
  if isRefBranch r || isRefLatestTag r then branchReferenceName r
  else tagRef r.tag

/-- The `Repository.fetch` of the root package: `NoErrAlreadyUpToDate`
is swallowed and reported as success. -/
def fetch (rem : RepoData) (s : GitState) : GitState × Except Err Unit :=
  ((fetchRaw rem s).1, .ok ())

/-- The `Repository.pull` of the root package: `NoErrAlreadyUpToDate` is
swallowed and reported as success. -/
def pull (r : RepoCfg) (rem : RepoData) (s : GitState) : GitState × Except Err Unit :=
  match pullRaw rem (referenceName r) s with
  | (s1, .upToDate) => (s1, .ok ())
  | (s1, .ok) => (s1, .ok ())
  | (s1, .err e) => (s1, .error e)

/-- The `Repository.getLatestTag` of the root package: same walk-and-match
algorithm as the `repository` package, but with the tolerant fetch and
the tracked branch taken from `branchReferenceName`. -/
def getLatestTag (r : RepoCfg) (rem : RepoData) (s : GitState) :
    GitState × Except Err Str :=
  match fetch rem s with
  | (s1, .error e) => (s1, .error e)
  | (s1, .ok ()) =>
    match checkout (branchReferenceName r) s1 with
    | (s2, .error e) => (s2, .error e)
    | (s2, .ok ()) =>
      match headHash s2 with
      | none => (s2, .error .refNotFound)
      | some h =>
        match logCTime s2.data h with
        | none => (s2, .error .objNotFound)
        | some l =>
          match firstTagged (buildTagsMap s2.data.tags) l with
          | some t => (s2, .ok t)
          | none => (s2, .error .noTag)

/-- The `Repository.setWTree` of the root package: latest-tag search and
checkout (swallowing `noTag`), pull for a branch, no-op for a fixed
tag. -/
def setWTree (r : RepoCfg) (rem : RepoData) (s : GitState) : GitState × Except Err Unit :=
  if isRefLatestTag r then
    match getLatestTag r rem s with
    | (s1, .ok tag) => checkout tag s1
    | (s1, .error .noTag) => (s1, .ok ())
    | (s1, .error e) => (s1, .error e)
  else if isRefBranch r then
    pull r rem s
  else (s, .ok ())

end Legacy

namespace Spec

open Git

/-- The latest-tag search algorithm as the specification words it:
"build a hash→tag-reference map from all tags, then walk the commit
log from the branch HEAD in committer-time order, stopping at the
first commit whose hash appears in the tag map — that tag is latest";
`some none` is an exhausted walk (`NoTagFound`), the outer `none` a
storage failure of the log itself. -/
def latestTagSearch (d : RepoData) (branchHead : Nat) : Option (Option Str) :=
  (logCTime d branchHead).map (fun l => firstTagged (buildTagsMap d.tags) l)

/-- Packaging of a search result the way `getLatestTag` reports it:
a found tag is returned, an exhausted walk is the no-tag-found error,
a failed log walk is a storage error. -/
def ofSearch (s2 : GitState) (r : Option (Option Str)) : GitState × Except Err Str :=
  match r with
  | none => (s2, .error .objNotFound)
  | some none => (s2, .error .noTag)
  | some (some t) => (s2, .ok t)

end Spec

namespace Client

open Git

/-- The `client.RepositoryOpts`. -/
structure RepositoryOpts where
  url : Str
  path : Str
  branch : Str
  username : Str
  password : Str
  singleBranch : Bool
  depth : Int
deriving DecidableEq, Repr

/-- The `client.Repository` runtime object (configuration part). -/
structure Repository where
  url : Str
  path : Str
  branch : Str
  fetchLatestTag : Bool
  refName : Str
  auth : Repo.AuthMethod
  singleBranch : Bool
  depth : Int
deriving DecidableEq, Repr

/-- The `client.NewRepository`: copies the options and builds the
credential; the `fetchLatestTag` and `refName` fields keep their Go
zero values (`false`, the empty reference) — no code in the `client`
package ever assigns `fetchLatestTag`. -/
def NewRepository (o : RepositoryOpts) : Repository :=
  let auth :=
    if o.username = [] && o.password = [] then Repo.AuthMethod.noAuth
    else Repo.AuthMethod.basic (if o.username = [] then str "caddy" else o.username)
      o.password
  { url := o.url, path := o.path, branch := o.branch
    fetchLatestTag := false, refName := [], auth := auth
    singleBranch := o.singleBranch, depth := o.depth }

/-- The `client.Command`: the raw argument vector plus the async flag. -/
structure Command where
  args : List Str
  async : Bool
deriving DecidableEq, Repr

/-- The non-nil `*exec.Cmd` built by `Command.cmd`: program name,
remaining arguments, and `SysProcAttr{Setpgid: true}`. -/
structure ExecCmd where
  name : Str
  argv : List Str
  setpgid : Bool
deriving DecidableEq, Repr

/-- The `Command.cmd`: `nil` (here `none`) for an empty argument vector,
otherwise the command with `Setpgid` set so it runs in its own
process group. -/
def cmd (c : Command) : Option ExecCmd :=
  match c.args with
  | [] => none
  | n :: rest => some { name := n, argv := rest, setpgid := true }

/-- Join strings with single spaces (the shape of `exec.Cmd.String`). -/
def joinSpace : List Str → Str
  | [] => []
  | [s] => s
  | s :: rest => s ++ ' ' :: joinSpace rest

/-- The `exec.Cmd.String` on a non-nil command. -/
def cmdLine (e : ExecCmd) : Str := joinSpace (e.name :: e.argv)

/-- The `Command.String`: calls `String` on the result of `cmd()`; for an
empty argument vector that receiver is `nil` and the call dereferences
a nil pointer — modelled as `none`. -/
def cmdString (c : Command) : Option Str :=
  (cmd c).map cmdLine

/-- Total helper naming the command line of a non-empty command (used
only in theorem statements). -/
def strOf (c : Command) : Str :=
  match cmdString c with
  | some s => s
  | none => []

/-- Which processes a kill reached. -/
inductive KillTarget where
  /-- The `syscall.Kill(-pid, SIGKILL)`: the whole process group. -/
  | group
  /-- The `exec.CommandContext`'s cancellation kill: only the direct
  child process. -/
  | childOnly
deriving DecidableEq, Repr

/-- Outcome of the race, for a synchronous command, between the
context's cancellation and the process's own termination; a process
result of `none` is a zero exit status. -/
inductive RaceW where
  | ctxDone
  | procDone (res : Option Err)
deriving DecidableEq, Repr

/-- Environment of one command execution: whether `Start` succeeds,
which side of the cancellation race fires first, and whether the kill
syscall succeeds. -/
structure ExecEnv where
  spawnOk : Bool
  race : RaceW
  killOk : Bool
deriving DecidableEq, Repr

/-- What one execution returned and what it killed. -/
structure ExecOut where
  result : Except Err Unit
  killed : Option KillTarget
deriving DecidableEq, Repr

/-- The `client.Command.Execute` after the non-nil command is built:
start (propagating a spawn failure), return immediately when async;
otherwise wait for the race — on context cancellation kill the whole
process group (`syscall.Kill(-pid, SIGKILL)`) and return the context's
error (or the kill error when the kill itself fails), on process exit
return the process's result. -/
def executeStarted (async : Bool) (env : ExecEnv) : ExecOut :=
  if !env.spawnOk then { result := .error .spawnFailed, killed := none }
  else if async then { result := .ok (), killed := none }
  else
    match env.race with
    | .ctxDone =>
      if env.killOk then { result := .error .ctxCanceled, killed := some .group }
      else { result := .error .killFailed, killed := none }
    | .procDone res =>
      { result := match res with | none => .ok () | some e => .error e
        killed := none }

/-- The `client.Command.Execute`: builds the command (`none` models the
nil-pointer panic of starting a nil command) and runs it. -/
def execute (c : Command) (env : ExecEnv) : Option ExecOut :=
  (cmd c).map (fun _ => executeStarted c.async env)

/-- One loop iteration's inputs for `client.Commander.Run`: the
command, its execution environment, and whether the context is already
cancelled at the `select` that follows the execution. -/
structure Step where
  cmd : Command
  env : ExecEnv
  ctxDoneAfter : Bool
deriving DecidableEq, Repr

/-- What a `Run` invocation did. -/
inductive RunRes where
  | ok
  | canceled
  | panicked
deriving DecidableEq, Repr

/-- Observable outcome of `Run`: its return value, the commands passed
to the `OnStart` hook (by command line), and the errors passed to the
`OnError` hook, in order. -/
structure RunOut where
  res : RunRes
  started : List Str
  errs : List Err
deriving DecidableEq, Repr

/-- The `client.Commander.Run`: for each command, the emptiness guard
`cmd.String() == ""` (which panics on a nil command), the `OnStart`
hook, `Execute` with errors reported to `OnError` but not aborting the
loop, and a trailing `select` that returns the context's error once it
is cancelled. -/
def run : List Step → RunOut
  | [] => { res := .ok, started := [], errs := [] }
  | st :: rest =>
    match cmd st.cmd with
    | none => { res := .panicked, started := [], errs := [] }
    | some e =>
      if cmdLine e = [] then run rest
      else
        let out := executeStarted st.cmd.async st.env
        let errs0 := match out.result with | .ok () => [] | .error er => [er]
        if st.ctxDoneAfter then
          { res := .canceled, started := [cmdLine e], errs := errs0 }
        else
          let r := run rest
          { res := r.res, started := cmdLine e :: r.started, errs := errs0 ++ r.errs }

end Client

namespace Cmdr

open Git Client

/-- The `commander.CommandOpts`. -/
structure CommandOpts where
  args : List Str
  async : Bool
deriving DecidableEq, Repr

/-- The `commander.Command`: split into name and remaining arguments. -/
structure Command where
  name : Str
  args : List Str
  async : Bool
deriving DecidableEq, Repr

/-- The `commander.NewCommand`: the zero `Command` for an empty argument
vector (its `Async` is the zero value, not the option's), otherwise
name plus remaining arguments. -/
def NewCommand (o : CommandOpts) : Command :=
  match o.args with
  | [] => { name := [], args := [], async := false }
  | n :: rest => { name := n, args := rest, async := o.async }

/-- The `commander.Command.Execute` semantics after `Start`:
`exec.CommandContext` arranges that cancellation kills only the direct
child process, after which `Wait` reports the child's
killed-by-signal exit error — the context's own error is never
returned here. -/
def executeStarted (async : Bool) (env : ExecEnv) : ExecOut :=
  if !env.spawnOk then { result := .error .spawnFailed, killed := none }
  else if async then { result := .ok (), killed := none }
  else
    match env.race with
    | .ctxDone => { result := .error .killedBySignal, killed := some .childOnly }
    | .procDone res =>
      { result := match res with | none => .ok () | some e => .error e
        killed := none }

/-- One loop iteration's inputs for `commander.Commander.Run`: the
command, whether the context is already cancelled at the `select` that
opens the iteration, and the execution environment. -/
structure Step where
  cmd : Command
  ctxDoneBefore : Bool
  env : ExecEnv
deriving DecidableEq, Repr

/-- The `commander.Commander.Run`: each iteration first checks the
context (returning its error when cancelled), skips commands with an
empty name, fires `OnStart`, and executes, reporting failures to
`OnError` without aborting; the loop falling off the end returns nil. -/
def run : List Step → RunOut
  | [] => { res := .ok, started := [], errs := [] }
  | st :: rest =>
    if st.ctxDoneBefore then { res := .canceled, started := [], errs := [] }
    else if st.cmd.name = [] then run rest
    else
      let out := executeStarted st.cmd.async st.env
      let errs0 := match out.result with | .ok () => [] | .error er => [er]
      let r := run rest
      { res := r.res, started := st.cmd.name :: r.started, errs := errs0 ++ r.errs }

end Cmdr

namespace Poll

/-- One resolution of the poll goroutine's `select`: the ticker fired,
or the context was cancelled. -/
inductive Sel where
  | tick
  | cancel
deriving DecidableEq, Repr

/-- Observable event on the poll service's stream: an emitted trigger
event (`none` is a plain "update now", `some e` carries the service's
error) or the closing of the channel. -/
inductive Ev where
  | emit (e : Option Err)
  | closeStream
deriving DecidableEq, Repr

/-- The poll goroutine's loop (`services/poll/service.go`): each tick
emits a nil event; the first cancellation emits one event carrying the
context's error, closes the channel and returns. -/
def loop : List Sel → List Ev
  | [] => []
  | .tick :: rest => .emit none :: loop rest
  | .cancel :: _ => [.emit (some .ctxCanceled), .closeStream]

/-- The `poll.Service.Start`: a non-positive interval emits one error
event and closes immediately; otherwise one immediate nil event is
emitted and the loop runs under the given schedule of `select`
resolutions.  The interval is in nanoseconds (`caddy.Duration`); real
time is abstracted into the ticker's `Sel.tick` events. -/
def start (interval : Int) (sched : List Sel) : List Ev :=
  if interval ≤ 0 then [.emit (some .pollNonPositive), .closeStream]
  else .emit none :: loop sched

/-- Number of stream-close events in a trace. -/
def closeCount (t : List Ev) : Nat :=
  t.countP (fun e => e = .closeStream)

end Poll

namespace TimeSvc

/-- One resolution of the `TimeService` goroutine's `select`
(`service/time_service.go`): the ticker fired with a time value, or
the context was cancelled. -/
inductive Sel where
  | tick (t : Nat)
  | cancel
deriving DecidableEq, Repr

/-- Observable event on the `TimeService` tick stream: an emitted
`time.Time` value, or the closing of the channel.  The channel is a
`chan time.Time`, so an event cannot carry an error. -/
inductive Ev where
  | emit (t : Nat)
  | closeStream
deriving DecidableEq, Repr

/-- The `TimeService.start` goroutine's loop: each ticker fire sends
its time on the stream; the first cancellation closes the channel and
returns — no final event is sent before the close. -/
def loop : List Sel → List Ev
  | [] => []
  | .tick t :: rest => .emit t :: loop rest
  | .cancel :: _ => [.closeStream]

/-- The `TimeService.start` goroutine: one immediate `time.Now()`
event, then the select loop under the given schedule. -/
def run (now : Nat) (sched : List Sel) : List Ev :=
  .emit now :: loop sched

/-- The `TimeService.Start`: rejects a non-positive interval with
`ErrNoRunTimeService`, otherwise launches the ticking goroutine. -/
def Start (interval : Int) (now : Nat) (sched : List Sel) : Except Err (List Ev) :=
  if interval ≤ 0 then .error .noRunTimeService
  else .ok (run now sched)

/-- Number of stream-close events in a `TimeService` trace. -/
def closeCount (t : List Ev) : Nat :=
  t.countP (fun e => e = .closeStream)

end TimeSvc

namespace Module

open Git Repo

/-- The `module.Client.Validate` (the `part_000` source): empty URL and
path are rejected; an absent path passes; an existing path must be a
directory that is either a git repository or empty; the URL scheme
must be http or https; a configured poll service must have an interval
of at least five seconds. -/
def validate (url path : Str) (ps : PathState) (pollInterval : Option Int) :
    Except Err Unit :=
  if url = [] then .error .emptyURL
  else if path = [] then .error .emptyPath
  else
    match
      (match ps with
       | .absent => Except.ok ()
       | .file => Except.error Err.notGitDir
       | .dirGit => Except.ok ()
       | .dirEmpty => Except.ok ()
       | .dirOther => Except.error Err.notGitDir : Except Err Unit) with
    | .error e => .error e
    | .ok () =>
      let scheme := url.takeWhile (fun c => c ≠ ':')
      if scheme = str "http" ∨ scheme = str "https" then
        match pollInterval with
        | some i =>
          if i < 5000000000 then .error .intervalTooSmall else .ok ()
        | none => .ok ()
      else .error .schemeNotSupported

/-- The synchronizer's setup phase as the host module runs it:
`Validate` (which never touches the disk) followed by
`Repository.Setup`; a validation failure leaves the repository state
untouched. -/
def startPhase (r : RepoCfg) (rem : RepoData) (ps : PathState)
    (pollInterval : Option Int) (s : GitState) : GitState × Except Err Unit :=
  match validate r.url r.path ps pollInterval with
  | .error e => (s, .error e)
  | .ok () => Repo.setup r rem ps s

end Module

namespace Scenario

open Git

/-- Commit A of the spec's two-tag scenario. -/
def cA : Commit := ⟨1, [], 10⟩

/-- Commit B, a descendant of A with a later committer time. -/
def cB : Commit := ⟨2, [1], 20⟩

/-- Repository contents with tag v1.0.0 on A, v1.1.0 on B, and branch
main at B. -/
def dB : RepoData :=
  { commits := [cA, cB]
    branches := [(str "refs/heads/main", 2)]
    tags := [(str "refs/tags/v1.0.0", 1), (str "refs/tags/v1.1.0", 2)] }

/-- The same contents with branch main reset to A. -/
def dA : RepoData :=
  { commits := [cA, cB]
    branches := [(str "refs/heads/main", 1)]
    tags := [(str "refs/tags/v1.0.0", 1), (str "refs/tags/v1.1.0", 2)] }

/-- Worktree state checked out at main (HEAD = B). -/
def stB : GitState :=
  { data := dB, remotes := [(str "origin", str "u")], headRef := str "refs/heads/main" }

/-- Worktree state checked out at main (HEAD = A). -/
def stA : GitState :=
  { data := dA, remotes := [(str "origin", str "u")], headRef := str "refs/heads/main" }

/-- Root-package configuration tracking the latest tag on main. -/
def lcfg : Legacy.RepoCfg :=
  { url := str "u", path := str "p", tag := Legacy.latestTagKeyword, branch := str "main" }

/-- The `repository`-package configuration tracking the latest tag on
main, built through `repository.New` from the
`latest_tag|main` marker. -/
def rcfg : Repo.RepoCfg :=
  Repo.new { url := str "u", path := str "p", remote := []
             branch := Utils.newLatestTagReferenceName (str "main")
             username := [], password := [], singleBranch := false, depth := 0 }

/-- Local state for the HEAD = B run of the `repository` package: the
new tag v1.1.0 exists only on the remote, so the strict fetch has
something to do. -/
def stBloc : GitState :=
  { data := { commits := [cA, cB]
              branches := [(str "refs/heads/main", 2)]
              tags := [(str "refs/tags/v1.0.0", 1)] }
    remotes := [(str "origin", str "u")], headRef := str "refs/heads/main" }

/-- Local state for the HEAD = A run of the `repository` package: both
tags exist only on the remote. -/
def stAloc : GitState :=
  { data := { commits := [cA, cB]
              branches := [(str "refs/heads/main", 1)]
              tags := [] }
    remotes := [(str "origin", str "u")], headRef := str "refs/heads/main" }

/-- The `repository`-package configuration for a plain branch "master". -/
def rbr : Repo.RepoCfg :=
  Repo.new { url := str "u", path := str "p", remote := [], branch := str "master"
             username := [], password := [], singleBranch := false, depth := 0 }

/-- Root-package configuration for a plain branch "master". -/
def lbr : Legacy.RepoCfg :=
  { url := str "u", path := str "p", tag := [], branch := str "master" }

/-- A one-commit repository whose branch master is already in sync
with the remote: a pull of it is "already up to date". -/
def dM : RepoData :=
  { commits := [cA], branches := [(str "refs/heads/master", 1)], tags := [] }

/-- Worktree state for `dM`, checked out at master. -/
def stM : GitState :=
  { data := dM, remotes := [(str "origin", str "u")], headRef := str "refs/heads/master" }

/-- The `repository`-package configuration tracking the latest tag of the
default branch (marker `latest_tag|` with empty branch name). -/
def rlt : Repo.RepoCfg :=
  Repo.new { url := str "u", path := str "p", remote := []
             branch := Utils.newLatestTagReferenceName []
             username := [], password := [], singleBranch := false, depth := 0 }

/-- A tagless local repository on branch master. -/
def stN : GitState :=
  { data := { commits := [cA], branches := [(str "refs/heads/master", 1)], tags := [] }
    remotes := [(str "origin", str "u")], headRef := str "refs/heads/master" }

/-- The tagless remote for `stN`, holding one extra (untagged) root
commit so that the strict fetch is not "already up to date". -/
def remN : RepoData :=
  { commits := [cA, ⟨3, [], 5⟩]
    branches := [(str "refs/heads/master", 1)], tags := [] }

/-- State of `stBloc` after the fetch from `dB`. -/
def s1B : GitState := (Git.fetchRaw dB stBloc).1

/-- State of `stBloc` after fetch and checkout of the tracked branch. -/
def s2B : GitState := { s1B with headRef := rcfg.refName }

/-- State of `stN` after the fetch from `remN`. -/
def s1N : GitState := (Git.fetchRaw remN stN).1

/-- State of `stN` after fetch and checkout of the tracked branch. -/
def s2N : GitState := { s1N with headRef := rlt.refName }

/-- A fully validated configuration (https URL, non-empty path) on
branch master. -/
def mcfg : Repo.RepoCfg :=
  Repo.new { url := str "https://h/r", path := str "/srv/site", remote := []
             branch := str "master", username := [], password := []
             singleBranch := false, depth := 0 }

/-- A pre-existing repository whose only remote has a different name,
so re-provisioning exercises the tolerated remote-not-found deletion. -/
def gOld : GitState :=
  { data := dM, remotes := [(str "upstream", str "old")], headRef := str "refs/heads/master" }

/-- The `gOld` after remote reconfiguration and the fetch from `remN`. -/
def s2G : GitState := (Git.fetchRaw remN (Repo.configureRemote mcfg gOld)).1

/-- The `s2G` after the checkout of the tracked branch. -/
def s3G : GitState := { s2G with headRef := mcfg.refName }

end Scenario

/-! Section Helper lemmas about the string split -/

theorem splitOn_ne_nil (sep : Char) : ∀ l : Str, Utils.splitOn sep l ≠ []
  | [] => by simp [Utils.splitOn]
  | c :: rest => by
    simp only [Utils.splitOn]
    split
    · simp
    · split <;> simp

theorem splitOn_not_mem (sep : Char) : ∀ l : Str, sep ∉ l → Utils.splitOn sep l = [l]
  | [], _ => rfl
  | c :: rest, h => by
    have hc : ¬ c = sep := fun hh => h (hh ▸ List.mem_cons_self c rest)
    have ih := splitOn_not_mem sep rest (fun hh => h (List.mem_cons_of_mem c hh))
    simp only [Utils.splitOn, if_neg hc, ih]

theorem splitOn_sep_append (sep : Char) :
    ∀ (xs ys : Str), sep ∉ xs →
      Utils.splitOn sep (xs ++ sep :: ys) = xs :: Utils.splitOn sep ys
  | [], ys, _ => by simp [Utils.splitOn]
  | c :: xs, ys, h => by
    have hc : ¬ c = sep := fun hh => h (hh ▸ List.mem_cons_self c xs)
    have ih := splitOn_sep_append sep xs ys (fun hh => h (List.mem_cons_of_mem c hh))
    simp only [List.cons_append, Utils.splitOn, if_neg hc, List.append_eq, ih]

theorem takeWhile_decomp (sep : Char) :
    ∀ l : Str, sep ∈ l →
      sep ∉ l.takeWhile (fun c => c ≠ sep) ∧
      l = l.takeWhile (fun c => c ≠ sep) ++ sep :: (l.dropWhile (fun c => c ≠ sep)).tail
  | [], h => absurd h (List.not_mem_nil sep)
  | c :: rest, h => by
    by_cases hc : c = sep
    · subst hc
      refine ⟨?_, ?_⟩ <;> simp [List.takeWhile_cons, List.dropWhile_cons]
    · have hmem : sep ∈ rest := by
        rcases List.mem_cons.mp h with h1 | h1
        · exact absurd h1.symm hc
        · exact h1
      have ih := takeWhile_decomp sep rest hmem
      have hcb : decide (c ≠ sep) = true := by simp [hc]
      constructor
      · intro hmem2
        rw [List.takeWhile_cons, hcb, if_pos rfl] at hmem2
        rcases List.mem_cons.mp hmem2 with h1 | h1
        · exact hc h1.symm
        · exact ih.1 h1
      · rw [List.takeWhile_cons, List.dropWhile_cons, hcb, if_pos rfl, if_pos rfl,
          List.cons_append]
        exact congrArg (c :: ·) ih.2

/-- The reference string built by `newReferenceName` splits into the
type followed by the split of the name. -/
theorem splitOn_newRef (typ nm : Str) (ht : Utils.delim ∉ typ) :
    Utils.splitOn Utils.delim (Utils.newReferenceName nm typ) =
      typ :: Utils.splitOn Utils.delim nm :=
  splitOn_sep_append Utils.delim typ nm ht

theorem isPrefixOf_append_self (xs ys : Str) : List.isPrefixOf xs (xs ++ ys) = true := by
  rw [List.isPrefixOf_iff_prefix]
  exact List.prefix_append xs ys

/-- Round-trip behaviour of a constructor for a delimiter-free name. -/
theorem roundtrip_typ (typ nm : Str) (ht : Utils.delim ∉ typ)
    (hty : (typ = Utils.latestCommitT || typ = Utils.latestTagT || typ = Utils.tagT) = true)
    (hn : Utils.delim ∉ nm) :
    Utils.isType (Utils.newReferenceName nm typ) typ = true ∧
    Utils.isValid (Utils.newReferenceName nm typ) = true ∧
    Utils.name? (Utils.newReferenceName nm typ) = some nm := by
  have hsplit := splitOn_newRef typ nm ht
  rw [splitOn_not_mem Utils.delim nm hn] at hsplit
  refine ⟨?_, ?_, ?_⟩
  · show List.isPrefixOf (typ ++ [Utils.delim]) (typ ++ Utils.delim :: nm) = true
    have : typ ++ Utils.delim :: nm = (typ ++ [Utils.delim]) ++ nm := by simp
    rw [this]
    exact isPrefixOf_append_self _ _
  · unfold Utils.isValid
    rw [hsplit]
    simp [hty]
  · unfold Utils.name?
    rw [hsplit]
    rfl

/-- Behaviour of a constructor when the name embeds the delimiter. -/
theorem badname_typ (typ nm : Str) (ht : Utils.delim ∉ typ) (hn : Utils.delim ∈ nm) :
    Utils.isValid (Utils.newReferenceName nm typ) = false ∧
    Utils.name? (Utils.newReferenceName nm typ) =
      some (nm.takeWhile (fun c => c ≠ Utils.delim)) := by
  obtain ⟨hpre, hdec⟩ := takeWhile_decomp Utils.delim nm hn
  have hsplit := splitOn_newRef typ nm ht
  rw [hdec] at hsplit
  rw [splitOn_sep_append Utils.delim _ _ hpre] at hsplit
  rw [← hdec] at hsplit
  cases hs : Utils.splitOn Utils.delim (nm.dropWhile (fun c => c ≠ Utils.delim)).tail with
  | nil => exact absurd hs (splitOn_ne_nil _ _)
  | cons a b =>
    rw [hs] at hsplit
    constructor
    · unfold Utils.isValid
      rw [hsplit]
      show (decide ((typ :: nm.takeWhile (fun c => decide (c ≠ Utils.delim)) :: a :: b).length = 2) &&
        (typ = Utils.latestCommitT || typ = Utils.latestTagT || typ = Utils.tagT)) = false
      rw [decide_eq_false
        (by simp : ¬ (typ :: nm.takeWhile (fun c => decide (c ≠ Utils.delim)) :: a :: b).length = 2)]
      exact Bool.false_and _
    · unfold Utils.name?
      rw [hsplit]
      rfl

/-- C10: for a name free of the delimiter `|`, each reference-name
constructor round-trips with its own type test, `IsValid`, and
`Name`; for a name embedding the delimiter, `IsValid` of the
constructed reference is false and `Name` yields only the segment
before the first embedded delimiter. -/
theorem c10_refname_roundtrip :
    (∀ nm : Str, Utils.delim ∉ nm →
      (Utils.isTag (Utils.newTagReferenceName nm) = true ∧
       Utils.isValid (Utils.newTagReferenceName nm) = true ∧
       Utils.name? (Utils.newTagReferenceName nm) = some nm) ∧
      (Utils.isLatestTag (Utils.newLatestTagReferenceName nm) = true ∧
       Utils.isValid (Utils.newLatestTagReferenceName nm) = true ∧
       Utils.name? (Utils.newLatestTagReferenceName nm) = some nm) ∧
      (Utils.isLatestCommit (Utils.newLatestCommitReferenceName nm) = true ∧
       Utils.isValid (Utils.newLatestCommitReferenceName nm) = true ∧
       Utils.name? (Utils.newLatestCommitReferenceName nm) = some nm)) ∧
    (∀ nm : Str, Utils.delim ∈ nm →
      (Utils.isValid (Utils.newTagReferenceName nm) = false ∧
       Utils.name? (Utils.newTagReferenceName nm) =
         some (nm.takeWhile (fun c => c ≠ Utils.delim))) ∧
      (Utils.isValid (Utils.newLatestTagReferenceName nm) = false ∧
       Utils.name? (Utils.newLatestTagReferenceName nm) =
         some (nm.takeWhile (fun c => c ≠ Utils.delim))) ∧
      (Utils.isValid (Utils.newLatestCommitReferenceName nm) = false ∧
       Utils.name? (Utils.newLatestCommitReferenceName nm) =
         some (nm.takeWhile (fun c => c ≠ Utils.delim)))) := by
  constructor
  · intro nm hn
    exact ⟨roundtrip_typ Utils.tagT nm (by decide) (by decide) hn,
           roundtrip_typ Utils.latestTagT nm (by decide) (by decide) hn,
           roundtrip_typ Utils.latestCommitT nm (by decide) (by decide) hn⟩
  · intro nm hn
    exact ⟨badname_typ Utils.tagT nm (by decide) hn,
           badname_typ Utils.latestTagT nm (by decide) hn,
           badname_typ Utils.latestCommitT nm (by decide) hn⟩

/-- Witness for C10 at the concrete names "abc" and "a|b". -/
theorem c10_refname_roundtrip_witness :
    ((Utils.isTag (Utils.newTagReferenceName (str "abc")) = true ∧
      Utils.isValid (Utils.newTagReferenceName (str "abc")) = true ∧
      Utils.name? (Utils.newTagReferenceName (str "abc")) = some (str "abc")) ∧
     (Utils.isLatestTag (Utils.newLatestTagReferenceName (str "abc")) = true ∧
      Utils.isValid (Utils.newLatestTagReferenceName (str "abc")) = true ∧
      Utils.name? (Utils.newLatestTagReferenceName (str "abc")) = some (str "abc")) ∧
     (Utils.isLatestCommit (Utils.newLatestCommitReferenceName (str "abc")) = true ∧
      Utils.isValid (Utils.newLatestCommitReferenceName (str "abc")) = true ∧
      Utils.name? (Utils.newLatestCommitReferenceName (str "abc")) = some (str "abc"))) ∧
    ((Utils.isValid (Utils.newTagReferenceName (str "a|b")) = false ∧
      Utils.name? (Utils.newTagReferenceName (str "a|b")) =
        some ((str "a|b").takeWhile (fun c => c ≠ Utils.delim))) ∧
     (Utils.isValid (Utils.newLatestTagReferenceName (str "a|b")) = false ∧
      Utils.name? (Utils.newLatestTagReferenceName (str "a|b")) =
        some ((str "a|b").takeWhile (fun c => c ≠ Utils.delim))) ∧
     (Utils.isValid (Utils.newLatestCommitReferenceName (str "a|b")) = false ∧
      Utils.name? (Utils.newLatestCommitReferenceName (str "a|b")) =
        some ((str "a|b").takeWhile (fun c => c ≠ Utils.delim)))) :=
  ⟨c10_refname_roundtrip.1 (str "abc") (by decide),
   c10_refname_roundtrip.2 (str "a|b") (by decide)⟩

/-! Section Helper lemmas about the git operations -/

theorem checkout_ok_eq {ref : Str} {s s' : Git.GitState}
    (h : Git.checkout ref s = (s', .ok ())) : s' = { s with headRef := ref } := by
  unfold Git.checkout at h
  cases hr : Git.resolveName s.data ref with
  | some h0 =>
    rw [hr] at h
    injection h with h1 h2
    exact h1.symm
  | none =>
    rw [hr] at h
    injection h with h1 h2
    exact Except.noConfusion h2

theorem checkout_error_eq {ref : Str} {s s' : Git.GitState} {e : Err}
    (h : Git.checkout ref s = (s', .error e)) : e = .refNotFound ∧ s' = s := by
  unfold Git.checkout at h
  cases hr : Git.resolveName s.data ref with
  | some h0 =>
    rw [hr] at h
    injection h with h1 h2
    exact absurd h2 (fun hh => Except.noConfusion hh)
  | none =>
    rw [hr] at h
    injection h with h1 h2
    injection h2 with h3
    exact ⟨h3.symm, h1.symm⟩

theorem repo_fetch_ok_eq {rem : Git.RepoData} {s s' : Git.GitState}
    (h : Repo.fetch rem s = (s', .ok ())) : s' = (Git.fetchRaw rem s).1 := by
  unfold Repo.fetch at h
  cases hf : Git.fetchRaw rem s with
  | mk s1 b =>
    rw [hf] at h
    cases b with
    | true =>
      injection h with h1 h2
      exact Except.noConfusion h2
    | false =>
      injection h with h1 h2
      exact h1.symm

theorem repo_fetch_error_eq {rem : Git.RepoData} {s s' : Git.GitState} {e : Err}
    (h : Repo.fetch rem s = (s', .error e)) :
    e = .alreadyUpToDate ∧ s' = (Git.fetchRaw rem s).1 := by
  unfold Repo.fetch at h
  cases hf : Git.fetchRaw rem s with
  | mk s1 b =>
    rw [hf] at h
    cases b with
    | true =>
      injection h with h1 h2
      injection h2 with h3
      exact ⟨h3.symm, h1.symm⟩
    | false =>
      injection h with h1 h2
      exact Except.noConfusion h2

theorem fetchRaw_remotes (rem : Git.RepoData) (s : Git.GitState) :
    (Git.fetchRaw rem s).1.remotes = s.remotes := rfl

theorem fetchRaw_headRef (rem : Git.RepoData) (s : Git.GitState) :
    (Git.fetchRaw rem s).1.headRef = s.headRef := rfl

theorem fetchRaw_commits_mem (rem : Git.RepoData) (s : Git.GitState)
    {c : Git.Commit} (h : c ∈ s.data.commits) :
    c ∈ (Git.fetchRaw rem s).1.data.commits :=
  List.mem_append_left _ h

theorem firstTagged_none_iff (m : List (Nat × Str)) :
    ∀ l : List Nat, Git.firstTagged m l = none ↔ ∀ x ∈ l, Git.lookupN m x = none
  | [] => by simp [Git.firstTagged]
  | h :: rest => by
    unfold Git.firstTagged
    cases hl : Git.lookupN m h with
    | some t =>
      simp only []
      constructor
      · intro hh
        exact Option.noConfusion hh
      · intro hh
        exact absurd hl (by rw [hh h (List.mem_cons_self h rest)]; exact fun x => Option.noConfusion x)
    | none =>
      rw [firstTagged_none_iff m rest]
      constructor
      · intro hh x hx
        rcases List.mem_cons.mp hx with h1 | h1
        · exact h1 ▸ hl
        · exact hh x h1
      · intro hh x hx
        exact hh x (List.mem_cons_of_mem h hx)

theorem lookupR_removeR_append (k v : Str) :
    ∀ m : List (Str × Str), Git.lookupR (Git.removeR m k ++ [(k, v)]) k = some v
  | [] => by simp [Git.removeR, Git.lookupR]
  | (k2, v2) :: rest => by
    unfold Git.removeR
    by_cases h2 : k2 = k
    · rw [if_pos h2]
      exact lookupR_removeR_append k v rest
    · rw [if_neg h2]
      show Git.lookupR ((k2, v2) :: (Git.removeR rest k ++ [(k, v)])) k = some v
      unfold Git.lookupR
      rw [if_neg h2]
      exact lookupR_removeR_append k v rest

/-! Section C7 — reference resolver and malformed markers -/

/-- C7 counterexample: the claim says a malformed reference marker
makes the resolver fail with an `InvalidReference` error, naming the
tag marker with an empty name as the example.  On the code,
`repository.New` has no failure path at all: the input `tag|` passes
`IsValid` and resolves to the tag reference `refs/tags/` with an empty
name, and a genuinely malformed marker such as `latest_tag|a|b` is
silently resolved as the plain branch of that whole string. -/
theorem c7_resolver_counterexample :
    Utils.isValid (str "tag|") = true ∧
    (Repo.new { url := str "u", path := str "p", remote := [], branch := str "tag|",
                username := [], password := [], singleBranch := false,
                depth := 0 }).refName = str "refs/tags/" ∧
    Utils.isValid (str "latest_tag|a|b") = false ∧
    (Repo.new { url := str "u", path := str "p", remote := [],
                branch := str "latest_tag|a|b", username := [], password := [],
                singleBranch := false, depth := 0 }).refName =
      Git.branchRef (str "latest_tag|a|b") := by decide

/-- C7 (amended): the resolver never fails.  A branch-or-tag string
whose marker is malformed (it does not split into exactly two
delimiter-separated parts, or its type is unknown) is treated as a
plain branch name — the whole string becomes the branch, with the
"master" default for the empty string — and the latest-tag flag stays
off; a tag marker with an empty name is considered valid and resolves
to the empty-named tag reference. -/
theorem c7_resolver_amended :
    (∀ o : Repo.Opts, Utils.isValid o.branch = false →
      (Repo.new o).refName =
        Git.branchRef (if o.branch = [] then str "master" else o.branch) ∧
      (Repo.new o).fetchLatestTag = false) ∧
    (∀ o : Repo.Opts, o.branch = Utils.newTagReferenceName [] →
      (Repo.new o).refName = Git.tagRef []) := by
  constructor
  · intro o h
    constructor <;> simp [Repo.new, h]
  · intro o h
    simp [Repo.new, h]
    decide

/-- Witness for C7 at the malformed marker `tag|a|b` and the
empty-named tag marker `tag|`. -/
theorem c7_resolver_amended_witness :
    ((Repo.new { url := str "u", path := str "p", remote := [], branch := str "tag|a|b",
                 username := [], password := [], singleBranch := false,
                 depth := 0 }).refName =
      Git.branchRef (if str "tag|a|b" = ([] : Str) then str "master" else str "tag|a|b") ∧
     (Repo.new { url := str "u", path := str "p", remote := [], branch := str "tag|a|b",
                 username := [], password := [], singleBranch := false,
                 depth := 0 }).fetchLatestTag = false) ∧
    (Repo.new { url := str "u", path := str "p", remote := [], branch := str "tag|",
                username := [], password := [], singleBranch := false,
                depth := 0 }).refName = Git.tagRef [] :=
  ⟨c7_resolver_amended.1 _ (by decide), c7_resolver_amended.2 _ (by decide)⟩

/-! Section C8 — interval trigger service -/

/-- C8 counterexample: the claim says that on cancellation the
interval trigger service emits exactly one final event carrying the
context's cancellation error and then closes its stream.  The
`TimeService` generation cited by the claim
(`service/time_service.go`) closes its `chan time.Time` on
cancellation without sending anything first: after one tick the whole
trace is the initial emission, the tick's emission and the close, and
on immediate cancellation just the initial emission and the close —
the event before the close is a plain time value, and the stream's
element type cannot carry an error at all. -/
theorem c8_trigger_counterexample :
    TimeSvc.run 100 [.tick 105, .cancel] =
      [.emit 100, .emit 105, .closeStream] ∧
    TimeSvc.run 100 [.cancel] = [.emit 100, .closeStream] := by decide

/-- C8 (amended): started with a positive interval, the interval
trigger service emits one event immediately, then one event per timer
tick, and on cancellation closes its stream exactly once with no
event after the close; but only the poll generation emits one final
event carrying the context's cancellation error before closing — the
`TimeService` generation closes its time-valued stream on cancellation
without emitting any final event. -/
theorem c8_trigger_amended :
    (∀ (interval : Int) (n : Nat) (rest : List Poll.Sel), 0 < interval →
      Poll.start interval (List.replicate n .tick ++ .cancel :: rest) =
        .emit none :: (List.replicate n (Poll.Ev.emit none) ++
          [Poll.Ev.emit (some .ctxCanceled), Poll.Ev.closeStream]) ∧
      Poll.closeCount (Poll.start interval (List.replicate n .tick ++ .cancel :: rest)) = 1 ∧
      (Poll.start interval (List.replicate n .tick ++ .cancel :: rest)).getLast? =
        some Poll.Ev.closeStream) ∧
    (∀ (interval : Int) (now : Nat) (ts : List Nat) (rest : List TimeSvc.Sel),
      0 < interval →
      TimeSvc.Start interval now (ts.map .tick ++ .cancel :: rest) =
        .ok (.emit now :: (ts.map TimeSvc.Ev.emit ++ [TimeSvc.Ev.closeStream])) ∧
      TimeSvc.closeCount (TimeSvc.run now (ts.map .tick ++ .cancel :: rest)) = 1 ∧
      (TimeSvc.run now (ts.map .tick ++ .cancel :: rest)).getLast? =
        some TimeSvc.Ev.closeStream) := by
  constructor
  · intro interval n rest h
    have hloop : Poll.loop (List.replicate n .tick ++ .cancel :: rest) =
        List.replicate n (Poll.Ev.emit none) ++
          [Poll.Ev.emit (some .ctxCanceled), Poll.Ev.closeStream] := by
      induction n with
      | zero => simp [Poll.loop]
      | succ k ih => simp [List.replicate_succ, Poll.loop, ih]
    have htrace : Poll.start interval (List.replicate n .tick ++ .cancel :: rest) =
        .emit none :: (List.replicate n (Poll.Ev.emit none) ++
          [Poll.Ev.emit (some .ctxCanceled), Poll.Ev.closeStream]) := by
      unfold Poll.start
      rw [if_neg (by omega), hloop]
    refine ⟨htrace, ?_, ?_⟩
    · rw [htrace]
      have hrep : ∀ m : Nat, (List.replicate m (Poll.Ev.emit none)).countP
          (fun e => e = Poll.Ev.closeStream) = 0 := by
        intro m
        induction m with
        | zero => rfl
        | succ k ih => simp [List.replicate_succ, List.countP_cons, ih]
      unfold Poll.closeCount
      rw [List.countP_cons, List.countP_append, hrep]
      decide
    · rw [htrace]
      have hshape : Poll.Ev.emit none :: (List.replicate n (Poll.Ev.emit none) ++
          [Poll.Ev.emit (some .ctxCanceled), Poll.Ev.closeStream]) =
          ((Poll.Ev.emit none :: List.replicate n (Poll.Ev.emit none) ++
            [Poll.Ev.emit (some .ctxCanceled)]) ++ [Poll.Ev.closeStream]) := by
        simp
      rw [hshape, List.getLast?_concat]
  · intro interval now ts rest h
    have hloop : TimeSvc.loop (ts.map .tick ++ .cancel :: rest) =
        ts.map TimeSvc.Ev.emit ++ [TimeSvc.Ev.closeStream] := by
      induction ts with
      | nil => simp [TimeSvc.loop]
      | cons t ts2 ih => simp [TimeSvc.loop, ih]
    refine ⟨?_, ?_, ?_⟩
    · unfold TimeSvc.Start
      rw [if_neg (by omega)]
      unfold TimeSvc.run
      rw [hloop]
    · unfold TimeSvc.closeCount TimeSvc.run
      rw [hloop]
      have hrep : ∀ l : List Nat, (l.map TimeSvc.Ev.emit).countP
          (fun e => e = TimeSvc.Ev.closeStream) = 0 := by
        intro l
        induction l with
        | nil => rfl
        | cons x l2 ih => simp [List.countP_cons, ih]
      simp [List.countP_cons, List.countP_append, hrep]
    · unfold TimeSvc.run
      rw [hloop]
      have hshape : TimeSvc.Ev.emit now ::
          (ts.map TimeSvc.Ev.emit ++ [TimeSvc.Ev.closeStream]) =
          (TimeSvc.Ev.emit now :: ts.map TimeSvc.Ev.emit) ++ [TimeSvc.Ev.closeStream] := by
        simp
      rw [hshape, List.getLast?_concat]

/-- Witness for C8's amended statement at interval 5s: two ticks
before cancellation on the poll generation, two timestamped ticks
before cancellation on the `TimeService` generation. -/
theorem c8_trigger_amended_witness :
    (Poll.start 5000000000 (List.replicate 2 .tick ++ .cancel :: []) =
      .emit none :: (List.replicate 2 (Poll.Ev.emit none) ++
        [Poll.Ev.emit (some .ctxCanceled), Poll.Ev.closeStream]) ∧
     Poll.closeCount (Poll.start 5000000000 (List.replicate 2 .tick ++ .cancel :: [])) = 1 ∧
     (Poll.start 5000000000 (List.replicate 2 .tick ++ .cancel :: [])).getLast? =
       some Poll.Ev.closeStream) ∧
    (TimeSvc.Start 5000000000 100 ([105, 110].map .tick ++ .cancel :: []) =
      .ok (.emit 100 :: ([105, 110].map TimeSvc.Ev.emit ++ [TimeSvc.Ev.closeStream])) ∧
     TimeSvc.closeCount (TimeSvc.run 100 ([105, 110].map .tick ++ .cancel :: [])) = 1 ∧
     (TimeSvc.run 100 ([105, 110].map .tick ++ .cancel :: [])).getLast? =
       some TimeSvc.Ev.closeStream) :=
  ⟨c8_trigger_amended.1 5000000000 2 [] (by decide),
   c8_trigger_amended.2 5000000000 100 [105, 110] [] (by decide)⟩

/-! Section C9 — empty commands: client panic versus commander skip -/

/-- C9: in the client package a `Command` with an empty `Args` list
makes `cmd()` return a nil command, so `Commander.Run`'s emptiness
guard `cmd.String()` dereferences nil and the run panics instead of
skipping the command; in the commander package `NewCommand` maps
zero-argument options to a `Command` with an empty name which `Run`
skips without executing anything. -/
theorem c9_empty_command :
    (∀ c : Client.Command, c.args = [] →
      Client.cmd c = none ∧
      ∀ (env : Client.ExecEnv) (d : Bool) (rest : List Client.Step),
        (Client.run ({ cmd := c, env := env, ctxDoneAfter := d } :: rest)).res =
          .panicked) ∧
    (∀ o : Cmdr.CommandOpts, o.args = [] →
      (Cmdr.NewCommand o).name = [] ∧
      ∀ (env : Client.ExecEnv) (rest : List Cmdr.Step),
        Cmdr.run ({ cmd := Cmdr.NewCommand o, ctxDoneBefore := false, env := env } :: rest) =
          Cmdr.run rest) := by
  constructor
  · intro c h
    have hc : Client.cmd c = none := by simp [Client.cmd, h]
    refine ⟨hc, ?_⟩
    intro env d rest
    simp [Client.run, hc]
  · intro o h
    have hn : Cmdr.NewCommand o = { name := [], args := [], async := false } := by
      simp [Cmdr.NewCommand, h]
    refine ⟨by rw [hn], ?_⟩
    intro env rest
    rw [hn]
    simp [Cmdr.run]

/-- Witness for C9 at concrete empty-argument commands. -/
theorem c9_empty_command_witness :
    Client.cmd { args := [], async := false } = none ∧
    (Client.run [{ cmd := { args := [], async := false }
                   env := { spawnOk := true, race := .procDone none, killOk := true }
                   ctxDoneAfter := false }]).res = .panicked ∧
    (Cmdr.NewCommand { args := [], async := true }).name = [] ∧
    Cmdr.run [{ cmd := Cmdr.NewCommand { args := [], async := true }, ctxDoneBefore := false
                env := { spawnOk := true, race := .procDone none, killOk := true } }] =
      Cmdr.run [] :=
  ⟨(c9_empty_command.1 _ rfl).1,
   (c9_empty_command.1 _ rfl).2 _ false [],
   (c9_empty_command.2 _ rfl).1,
   (c9_empty_command.2 _ rfl).2 _ []⟩

/-! Section C5 — best-effort command runs -/

/-- C5: with a never-cancelled context, `commander.Commander.Run`
starts every command with a non-empty name in list order regardless of
earlier failures and returns nil; the client runner likewise returns
nil under a never-cancelled context when no command is empty; in the
concrete two-command set where A fails synchronously and B succeeds,
both are started, A's failure goes to the `OnError` hook, and the run
returns nil — in both packages. -/
theorem c5_best_effort :
    (∀ steps : List Cmdr.Step, (∀ st ∈ steps, st.ctxDoneBefore = false) →
      (Cmdr.run steps).res = .ok ∧
      (Cmdr.run steps).started =
        (steps.filter (fun st => !decide (st.cmd.name = []))).map (fun st => st.cmd.name)) ∧
    (∀ steps : List Client.Step,
      (∀ st ∈ steps, st.ctxDoneAfter = false ∧ Client.cmd st.cmd ≠ none) →
      (Client.run steps).res = .ok) ∧
    (Cmdr.run
        [{ cmd := { name := str "a", args := [], async := false }, ctxDoneBefore := false
           env := { spawnOk := true, race := .procDone (some (.exitStatus 1)), killOk := true } },
         { cmd := { name := str "b", args := [], async := false }, ctxDoneBefore := false
           env := { spawnOk := true, race := .procDone none, killOk := true } }] =
      { res := .ok, started := [str "a", str "b"], errs := [.exitStatus 1] }) ∧
    (Client.run
        [{ cmd := { args := [str "a"], async := false }
           env := { spawnOk := true, race := .procDone (some (.exitStatus 1)), killOk := true }
           ctxDoneAfter := false },
         { cmd := { args := [str "b"], async := false }
           env := { spawnOk := true, race := .procDone none, killOk := true }
           ctxDoneAfter := false }] =
      { res := .ok, started := [str "a", str "b"], errs := [.exitStatus 1] }) := by
  refine ⟨?_, ?_, by decide, by decide⟩
  · intro steps h
    induction steps with
    | nil => exact ⟨rfl, rfl⟩
    | cons st rest ih =>
      have h0 := h st (List.mem_cons_self st rest)
      have hrest := ih (fun s hs => h s (List.mem_cons_of_mem _ hs))
      by_cases hn : st.cmd.name = []
      · constructor <;> simp [Cmdr.run, h0, hn, hrest.1, hrest.2, List.filter]
      · constructor <;> simp [Cmdr.run, h0, hn, hrest.1, hrest.2, List.filter]
  · intro steps h
    induction steps with
    | nil => rfl
    | cons st rest ih =>
      have h0 := h st (List.mem_cons_self st rest)
      have hrest := ih (fun s hs => h s (List.mem_cons_of_mem _ hs))
      cases hc : Client.cmd st.cmd with
      | none => exact absurd hc h0.2
      | some e =>
        by_cases hl : Client.cmdLine e = []
        · simp [Client.run, hc, hl, hrest]
        · simp [Client.run, hc, hl, h0.1, hrest]

/-- Witness for C5, instantiating the general best-effort statements
on the concrete failing-then-succeeding command set. -/
theorem c5_best_effort_witness :
    ((Cmdr.run
        [{ cmd := { name := str "a", args := [], async := false }, ctxDoneBefore := false
           env := { spawnOk := true, race := .procDone (some (.exitStatus 1)), killOk := true } },
         { cmd := { name := str "b", args := [], async := false }, ctxDoneBefore := false
           env := { spawnOk := true, race := .procDone none, killOk := true } }]).res = .ok) ∧
    ((Client.run
        [{ cmd := { args := [str "a"], async := false }
           env := { spawnOk := true, race := .procDone (some (.exitStatus 1)), killOk := true }
           ctxDoneAfter := false },
         { cmd := { args := [str "b"], async := false }
           env := { spawnOk := true, race := .procDone none, killOk := true }
           ctxDoneAfter := false }]).res = .ok) :=
  ⟨(c5_best_effort.1 _ (by decide)).1,
   c5_best_effort.2.1 _ (by decide)⟩

/-! Section C4 — cancellation of a running synchronous command -/

/-- C4 counterexample: the claim says cancellation mid-execution makes
`Execute` terminate the entire process group and return the context's
cancellation error.  In the commander package (one of the two cited
`Execute` implementations), `exec.CommandContext` kills only the
direct child and `Wait` hands back the process's killed-by-signal exit
error, not the context's error. -/
theorem c4_cancellation_counterexample :
    Cmdr.executeStarted false { spawnOk := true, race := .ctxDone, killOk := true } =
      { result := .error .killedBySignal, killed := some .childOnly } ∧
    ¬ (Cmdr.executeStarted false
        { spawnOk := true, race := .ctxDone, killOk := true }).result =
      .error .ctxCanceled ∧
    ¬ (Cmdr.executeStarted false
        { spawnOk := true, race := .ctxDone, killOk := true }).killed =
      some .group := by decide

/-- C4 (amended): when the governing context is cancelled while a
synchronous command is mid-execution — in the client package,
`Execute` kills the entire process group and returns the context's
cancellation error, and `Run` then returns the cancellation error; in
the commander package, only the direct child is killed and `Execute`
returns the process's own exit error, and `Run` returns the
cancellation error only when another command follows the cancelled one
(returning nil when it was the last). -/
theorem c4_cancellation_amended :
    (∀ (c : Client.Command) (env : Client.ExecEnv),
      c.args ≠ [] → c.async = false → env.spawnOk = true → env.race = .ctxDone →
      env.killOk = true →
      Client.execute c env = some { result := .error .ctxCanceled, killed := some .group }) ∧
    (∀ (c : Client.Command) (env : Client.ExecEnv),
      Client.strOf c ≠ [] → c.async = false → env.spawnOk = true → env.race = .ctxDone →
      env.killOk = true → ∀ rest : List Client.Step,
      Client.run ({ cmd := c, env := env, ctxDoneAfter := true } :: rest) =
        { res := .canceled, started := [Client.strOf c], errs := [.ctxCanceled] }) ∧
    (∀ env : Client.ExecEnv, env.spawnOk = true → env.race = .ctxDone →
      Cmdr.executeStarted false env =
        { result := .error .killedBySignal, killed := some .childOnly }) ∧
    (∀ (c : Cmdr.Command) (env : Client.ExecEnv),
      c.name ≠ [] → c.async = false → env.spawnOk = true → env.race = .ctxDone →
      Cmdr.run [{ cmd := c, ctxDoneBefore := false, env := env }] =
        { res := .ok, started := [c.name], errs := [.killedBySignal] } ∧
      ∀ st2 : Cmdr.Step, st2.ctxDoneBefore = true →
        Cmdr.run [{ cmd := c, ctxDoneBefore := false, env := env }, st2] =
          { res := .canceled, started := [c.name], errs := [.killedBySignal] }) := by
  refine ⟨?_, ?_, ?_, ?_⟩
  · intro c env ha hasync hsp hr hk
    cases hc : Client.cmd c with
    | none =>
      exfalso
      apply ha
      unfold Client.cmd at hc
      cases harg : c.args with
      | nil => rfl
      | cons x xs => rw [harg] at hc; exact Option.noConfusion hc
    | some e =>
      unfold Client.execute
      rw [hc, hasync]
      simp [Client.executeStarted, hsp, hr, hk]
  · intro c env hs hasync hsp hr hk rest
    cases hc : Client.cmd c with
    | none =>
      exfalso
      apply hs
      simp [Client.strOf, Client.cmdString, hc]
    | some e =>
      have hline : Client.strOf c = Client.cmdLine e := by
        simp [Client.strOf, Client.cmdString, hc]
      rw [hline] at hs ⊢
      unfold Client.run
      rw [hc]
      simp [hs, hasync, Client.executeStarted, hsp, hr, hk]
  · intro env hsp hr
    simp [Cmdr.executeStarted, hsp, hr]
  · intro c env hn hasync hsp hr
    have hex : Cmdr.executeStarted c.async env =
        { result := .error .killedBySignal, killed := some .childOnly } := by
      rw [hasync]
      simp [Cmdr.executeStarted, hsp, hr]
    constructor
    · simp [Cmdr.run, hn, hex]
    · intro st2 h2
      simp [Cmdr.run, hn, hex, h2]

/-- Witness for C4's amended statement at concrete commands and the
cancellation environment. -/
theorem c4_cancellation_amended_witness :
    Client.execute { args := [str "sleep", str "10"], async := false }
        { spawnOk := true, race := .ctxDone, killOk := true } =
      some { result := .error .ctxCanceled, killed := some .group } ∧
    Client.run [{ cmd := { args := [str "sleep", str "10"], async := false }
                  env := { spawnOk := true, race := .ctxDone, killOk := true }
                  ctxDoneAfter := true }] =
      { res := .canceled
        started := [Client.strOf { args := [str "sleep", str "10"], async := false }]
        errs := [.ctxCanceled] } ∧
    Cmdr.executeStarted false { spawnOk := true, race := .ctxDone, killOk := false } =
      { result := .error .killedBySignal, killed := some .childOnly } ∧
    Cmdr.run [{ cmd := { name := str "sleep", args := [str "10"], async := false }
                ctxDoneBefore := false
                env := { spawnOk := true, race := .ctxDone, killOk := true } }] =
      { res := .ok, started := [str "sleep"], errs := [.killedBySignal] } ∧
    Cmdr.run [{ cmd := { name := str "sleep", args := [str "10"], async := false }
                ctxDoneBefore := false
                env := { spawnOk := true, race := .ctxDone, killOk := true } },
              { cmd := { name := str "b", args := [], async := false }
                ctxDoneBefore := true
                env := { spawnOk := true, race := .procDone none, killOk := true } }] =
      { res := .canceled, started := [str "sleep"], errs := [.killedBySignal] } :=
  ⟨c4_cancellation_amended.1 _ _ (by decide) rfl rfl rfl rfl,
   c4_cancellation_amended.2.1 _ _ (by decide) rfl rfl rfl rfl [],
   c4_cancellation_amended.2.2.1 _ rfl rfl,
   (c4_cancellation_amended.2.2.2 _ _ (by decide) rfl rfl rfl).1,
   (c4_cancellation_amended.2.2.2 _ _ (by decide) rfl rfl rfl).2 _ rfl⟩

/-! Section C2 — NoTagFound is swallowed by Update -/

/-- A no-tag-found result of the latest-tag search leaves the state it
reports checked out at the tracked reference (the search checked the
branch out before walking). -/
theorem getLatestTag_noTag_head {r : Repo.RepoCfg} {rem : Git.RepoData}
    {s s2 : Git.GitState}
    (h : Repo.getLatestTag r rem s = (s2, .error .noTag)) :
    s2.headRef = r.refName := by
  unfold Repo.getLatestTag at h
  split at h
  · rename_i s1 e heq
    injection h with h1 h2
    injection h2 with h3
    have h4 := (repo_fetch_error_eq heq).1
    rw [h3] at h4
    exact Err.noConfusion h4
  · rename_i s1 heq
    split at h
    · rename_i s2' e hco
      injection h with h1 h2
      injection h2 with h3
      have h4 := (checkout_error_eq hco).1
      rw [h3] at h4
      exact Err.noConfusion h4
    · rename_i s2' hco
      have hhead : s2'.headRef = r.refName := by rw [checkout_ok_eq hco]
      split at h
      · injection h with h1 h2
        injection h2 with h3
        exact Err.noConfusion h3
      · rename_i hh hhh
        split at h
        · injection h with h1 h2
          injection h2 with h3
          exact Err.noConfusion h3
        · rename_i l hlog
          split at h
          · rename_i t hft
            injection h with h1 h2
            exact Except.noConfusion h2
          · injection h with h1 h2
            rw [← h1]
            exact hhead

/-- C2: in the `repository` package, a latest-tag search that finds no
tag is swallowed by `Update`: the update returns nil, no tag checkout
happens (the worktree stays at the tracked branch reference, so a
worktree already at that reference is unchanged); and in the `client`
package no repository constructed by `NewRepository` is ever
configured to track the latest tag, so its differing `Update` never
reaches the latest-tag branch. -/
theorem c2_noTag_swallowed :
    (∀ (r : Repo.RepoCfg) (rem : Git.RepoData) (s s2 : Git.GitState),
      r.fetchLatestTag = true →
      Repo.getLatestTag r rem s = (s2, .error .noTag) →
      Repo.update r rem s = (s2, .ok ()) ∧
      s2.headRef = r.refName ∧
      (s.headRef = r.refName → s2.headRef = s.headRef)) ∧
    (∀ o : Client.RepositoryOpts, (Client.NewRepository o).fetchLatestTag = false) := by
  constructor
  · intro r rem s s2 hflt hlt
    refine ⟨?_, getLatestTag_noTag_head hlt, ?_⟩
    · unfold Repo.update
      rw [hflt, hlt]
      simp
    · intro hh
      rw [getLatestTag_noTag_head hlt, hh]
  · intro o
    rfl

/-- Witness for C2 on the concrete tagless repository. -/
theorem c2_noTag_swallowed_witness :
    (Repo.update Scenario.rlt Scenario.remN Scenario.stN =
      ({ data := { commits := Scenario.stN.data.commits ++ [⟨3, [], 5⟩]
                   branches := Scenario.stN.data.branches
                   tags := Scenario.stN.data.tags }
         remotes := Scenario.stN.remotes
         headRef := Scenario.rlt.refName }, .ok ()) ∧
     ({ data := { commits := Scenario.stN.data.commits ++ [⟨3, [], 5⟩]
                  branches := Scenario.stN.data.branches
                  tags := Scenario.stN.data.tags }
        remotes := Scenario.stN.remotes
        headRef := Scenario.rlt.refName } : Git.GitState).headRef = Scenario.rlt.refName) ∧
    (Client.NewRepository { url := str "u", path := str "p", branch := str "x"
                            username := [], password := [], singleBranch := false
                            depth := 0 }).fetchLatestTag = false := by
  have h := c2_noTag_swallowed.1 Scenario.rlt Scenario.remN Scenario.stN
    { data := { commits := Scenario.stN.data.commits ++ [⟨3, [], 5⟩]
                branches := Scenario.stN.data.branches
                tags := Scenario.stN.data.tags }
      remotes := Scenario.stN.remotes
      headRef := Scenario.rlt.refName } (by decide) (by decide)
  exact ⟨⟨h.1, h.2.1⟩, c2_noTag_swallowed.2 _⟩

/-! Section C3 — "already up to date" on a branch pull -/

/-- C3 counterexample: the claim says an "already up to date" pull
result makes `Update` return nil, never an error.  In the `repository`
package, `pull` has no special case for go-git's
`NoErrAlreadyUpToDate`, so on a branch repository already in sync with
its remote `Update` returns that value as an error. -/
theorem c3_up_to_date_counterexample :
    (Repo.update Scenario.rbr Scenario.dM Scenario.stM).2 = .error .alreadyUpToDate := by
  decide

/-- C3 (amended): for a branch reference `Update` performs the
fast-forward pull; in the root `caddygit` package "already up to date"
is swallowed and `setWTree` returns nil, but in the `repository`
package `pull` returns it as an error and `Update` propagates it. -/
theorem c3_up_to_date_amended :
    (∀ (r : Repo.RepoCfg) (rem : Git.RepoData) (s s1 : Git.GitState),
      r.fetchLatestTag = false → Git.isBranchName r.refName = true →
      Git.pullRaw rem r.refName s = (s1, .upToDate) →
      Repo.update r rem s = (s1, .error .alreadyUpToDate)) ∧
    (∀ (r : Legacy.RepoCfg) (rem : Git.RepoData) (s s1 : Git.GitState),
      Legacy.isRefLatestTag r = false → Legacy.isRefBranch r = true →
      Git.pullRaw rem (Legacy.referenceName r) s = (s1, .upToDate) →
      Legacy.setWTree r rem s = (s1, .ok ())) := by
  constructor
  · intro r rem s s1 hflt hbr hpull
    unfold Repo.update
    rw [hflt]
    simp only [Bool.false_eq_true, if_false, hbr, if_true]
    unfold Repo.pull
    rw [hpull]
  · intro r rem s s1 hlt hbr hpull
    unfold Legacy.setWTree
    rw [hlt, hbr]
    simp only [Bool.false_eq_true, if_false, if_true]
    unfold Legacy.pull
    rw [hpull]

/-- Witness for C3's amended statement on the in-sync one-commit
repository. -/
theorem c3_up_to_date_amended_witness :
    Repo.update Scenario.rbr Scenario.dM Scenario.stM =
      ((Git.fetchRaw Scenario.dM Scenario.stM).1, .error .alreadyUpToDate) ∧
    Legacy.setWTree Scenario.lbr Scenario.dM Scenario.stM =
      ((Git.fetchRaw Scenario.dM Scenario.stM).1, .ok ()) :=
  ⟨c3_up_to_date_amended.1 Scenario.rbr Scenario.dM Scenario.stM _
      (by decide) (by decide) (by decide),
   c3_up_to_date_amended.2 Scenario.lbr Scenario.dM Scenario.stM _
      (by decide) (by decide) (by decide)⟩

/-! Section C1 — the latest-tag search algorithm -/

/-- After a successful fetch and checkout, `getLatestTag` computes
exactly the spec's walk-and-match search from the checked-out branch's
head. -/
theorem getLatestTag_spec_eq (r : Repo.RepoCfg) (rem : Git.RepoData)
    (s s1 s2 : Git.GitState) (h : Nat)
    (hf : Repo.fetch rem s = (s1, .ok ()))
    (hc : Git.checkout r.refName s1 = (s2, .ok ()))
    (hh : Git.headHash s2 = some h) :
    Repo.getLatestTag r rem s = Spec.ofSearch s2 (Spec.latestTagSearch s2.data h) := by
  unfold Repo.getLatestTag
  simp only [hf, hc, hh]
  unfold Spec.latestTagSearch Spec.ofSearch
  cases hlog : Git.logCTime s2.data h with
  | none => simp [hlog]
  | some l =>
    simp only [hlog, Option.map_some']
    cases hft : Git.firstTagged (Git.buildTagsMap s2.data.tags) l with
    | none => simp [hft]
    | some t => simp [hft]

/-- C1: the latest-tag search fetches, checks out the tracked branch,
builds the hash-to-tag map over all tags and walks the commit log from
the branch head in committer-time order, returning the first mapped
commit's tag (the spec's composition, `Spec.latestTagSearch`); when
the walk exhausts without a match it returns the no-tag-found error;
and on the two-tag scenario it returns v1.1.0 from HEAD = B and v1.0.0
from HEAD = A, in both generations of the synchronizer. -/
theorem c1_latest_tag_search :
    (∀ (r : Repo.RepoCfg) (rem : Git.RepoData) (s s1 s2 : Git.GitState) (h : Nat),
      Repo.fetch rem s = (s1, .ok ()) →
      Git.checkout r.refName s1 = (s2, .ok ()) →
      Git.headHash s2 = some h →
      Repo.getLatestTag r rem s = Spec.ofSearch s2 (Spec.latestTagSearch s2.data h)) ∧
    (∀ (r : Repo.RepoCfg) (rem : Git.RepoData) (s s1 s2 : Git.GitState) (h : Nat)
        (l : List Nat),
      Repo.fetch rem s = (s1, .ok ()) →
      Git.checkout r.refName s1 = (s2, .ok ()) →
      Git.headHash s2 = some h →
      Git.logCTime s2.data h = some l →
      (∀ x ∈ l, Git.lookupN (Git.buildTagsMap s2.data.tags) x = none) →
      Repo.getLatestTag r rem s = (s2, .error .noTag)) ∧
    ((Legacy.getLatestTag Scenario.lcfg Scenario.dB Scenario.stB).2 =
        .ok (str "refs/tags/v1.1.0") ∧
     (Legacy.getLatestTag Scenario.lcfg Scenario.dA Scenario.stA).2 =
        .ok (str "refs/tags/v1.0.0") ∧
     (Repo.getLatestTag Scenario.rcfg Scenario.dB Scenario.stBloc).2 =
        .ok (str "refs/tags/v1.1.0") ∧
     (Repo.getLatestTag Scenario.rcfg Scenario.dA Scenario.stAloc).2 =
        .ok (str "refs/tags/v1.0.0")) := by
  refine ⟨getLatestTag_spec_eq, ?_, by decide⟩
  intro r rem s s1 s2 h l hf hc hh hl hnone
  rw [getLatestTag_spec_eq r rem s s1 s2 h hf hc hh]
  unfold Spec.ofSearch Spec.latestTagSearch
  rw [hl, Option.map_some', (firstTagged_none_iff _ l).mpr hnone]

/-- Witness for C1 on the concrete scenario states. -/
theorem c1_latest_tag_search_witness :
    Repo.getLatestTag Scenario.rcfg Scenario.dB Scenario.stBloc =
      Spec.ofSearch Scenario.s2B (Spec.latestTagSearch Scenario.s2B.data 2) ∧
    Repo.getLatestTag Scenario.rlt Scenario.remN Scenario.stN =
      (Scenario.s2N, .error .noTag) :=
  ⟨c1_latest_tag_search.1 _ _ _ Scenario.s1B Scenario.s2B 2
      (by decide) (by decide) (by decide),
   c1_latest_tag_search.2.1 _ _ _ Scenario.s1N Scenario.s2N 1 [1]
      (by decide) (by decide) (by decide) (by decide) (by decide)⟩

/-! Section C6 — Setup on the three path states -/

/-- C6: through the validation-plus-setup phase, a path that exists,
is non-empty (a regular file or a non-empty non-repository directory)
fails with the not-a-git-directory error without touching the
repository state; an empty existing directory is cloned fresh from the
remote; and a pre-existing repository has its configured remote
deleted (tolerating its absence — no hypothesis requires the remote to
exist) and re-created at the configured URL, is fetched and checked
out, and keeps every commit it already had. -/
theorem c6_setup_behaviour :
    (∀ (r : Repo.RepoCfg) (rem : Git.RepoData) (pi : Option Int) (g : Git.GitState),
      r.url ≠ [] → r.path ≠ [] →
      Module.startPhase r rem .dirOther pi g = (g, .error .notGitDir) ∧
      Module.startPhase r rem .file pi g = (g, .error .notGitDir)) ∧
    (∀ (r : Repo.RepoCfg) (rem : Git.RepoData) (pi : Option Int) (g : Git.GitState)
        (h0 : Nat),
      r.url ≠ [] → r.path ≠ [] →
      (r.url.takeWhile (fun c => c ≠ ':') = str "http" ∨
       r.url.takeWhile (fun c => c ≠ ':') = str "https") →
      (∀ i, pi = some i → ¬ i < 5000000000) →
      Git.resolveName rem r.refName = some h0 →
      Module.startPhase r rem .dirEmpty pi g =
        ({ data := rem, remotes := [(r.remoteName, r.url)], headRef := r.refName },
         .ok ())) ∧
    (∀ (r : Repo.RepoCfg) (rem : Git.RepoData) (pi : Option Int) (g s2 s3 : Git.GitState),
      r.url ≠ [] → r.path ≠ [] →
      (r.url.takeWhile (fun c => c ≠ ':') = str "http" ∨
       r.url.takeWhile (fun c => c ≠ ':') = str "https") →
      (∀ i, pi = some i → ¬ i < 5000000000) →
      Repo.fetch rem (Repo.configureRemote r g) = (s2, .ok ()) →
      Git.checkout r.refName s2 = (s3, .ok ()) →
      Module.startPhase r rem .dirGit pi g = (s3, .ok ()) ∧
      Git.lookupR s3.remotes r.remoteName = some r.url ∧
      ∀ c ∈ g.data.commits, c ∈ s3.data.commits) := by
  refine ⟨?_, ?_, ?_⟩
  · intro r rem pi g hu hp
    constructor <;> simp [Module.startPhase, Module.validate, hu, hp]
  · intro r rem pi g h0 hu hp hs hi hres
    have hv : Module.validate r.url r.path .dirEmpty pi = .ok () := by
      unfold Module.validate
      simp only [if_neg hu, if_neg hp, if_pos hs]
      cases pi with
      | none => rfl
      | some i => simp [hi i rfl]
    unfold Module.startPhase
    rw [hv]
    unfold Repo.setup Repo.plainOpen
    simp only []
    unfold Repo.cloneRepo
    rw [hres]
  · intro r rem pi g s2 s3 hu hp hs hi hfetch hchk
    have hv : Module.validate r.url r.path .dirGit pi = .ok () := by
      unfold Module.validate
      simp only [if_neg hu, if_neg hp, if_pos hs]
      cases pi with
      | none => rfl
      | some i => simp [hi i rfl]
    have hs3 : s3 = { s2 with headRef := r.refName } := checkout_ok_eq hchk
    have hs2 : s2 = (Git.fetchRaw rem (Repo.configureRemote r g)).1 :=
      repo_fetch_ok_eq hfetch
    refine ⟨?_, ?_, ?_⟩
    · unfold Module.startPhase
      rw [hv]
      unfold Repo.setup Repo.plainOpen
      simp only [hfetch, hchk]
    · rw [hs3]
      show Git.lookupR s2.remotes r.remoteName = some r.url
      rw [hs2, fetchRaw_remotes]
      exact lookupR_removeR_append r.remoteName r.url g.remotes
    · intro c hc2
      rw [hs3]
      show c ∈ s2.data.commits
      rw [hs2]
      exact fetchRaw_commits_mem rem (Repo.configureRemote r g) hc2

/-- Witness for C6 on the concrete states: the three path cases with
the validated https configuration; the pre-existing repository's only
remote has a different name, so the remote-not-found tolerance is
exercised. -/
theorem c6_setup_behaviour_witness :
    (Module.startPhase Scenario.mcfg Scenario.dM .dirOther (some 3600000000000)
        Scenario.gOld = (Scenario.gOld, .error .notGitDir) ∧
     Module.startPhase Scenario.mcfg Scenario.dM .file (some 3600000000000)
        Scenario.gOld = (Scenario.gOld, .error .notGitDir)) ∧
    Module.startPhase Scenario.mcfg Scenario.dM .dirEmpty (some 3600000000000)
        Scenario.gOld =
      ({ data := Scenario.dM
         remotes := [(Scenario.mcfg.remoteName, Scenario.mcfg.url)]
         headRef := Scenario.mcfg.refName }, .ok ()) ∧
    (Module.startPhase Scenario.mcfg Scenario.remN .dirGit (some 3600000000000)
        Scenario.gOld = (Scenario.s3G, .ok ()) ∧
     Git.lookupR Scenario.s3G.remotes Scenario.mcfg.remoteName =
       some Scenario.mcfg.url ∧
     ∀ c ∈ Scenario.gOld.data.commits, c ∈ Scenario.s3G.data.commits) :=
  ⟨c6_setup_behaviour.1 Scenario.mcfg Scenario.dM (some 3600000000000) Scenario.gOld
      (by decide) (by decide),
   c6_setup_behaviour.2.1 Scenario.mcfg Scenario.dM (some 3600000000000) Scenario.gOld 1
      (by decide) (by decide) (by decide) (by decide) (by decide),
   c6_setup_behaviour.2.2 Scenario.mcfg Scenario.remN (some 3600000000000) Scenario.gOld
      Scenario.s2G Scenario.s3G
      (by decide) (by decide) (by decide) (by decide) (by decide) (by decide)⟩

end CaddyGit
